import Mathlib

/-!
Shallow embedding of the Atlas correlation pipeline
(`correlate_dns_ping.py`, `ip2ci.py`, `ci_stats.py`) and proofs about it.

Conventions of the embedding:
* Python `int` is `Int` (`Nat` where the source value is a count).
* Python `str` is `String`; `s[:13]` is `String.take s 13`.
* Python dicts used as caches are association lists with first-match lookup
  and replace-or-append assignment.
* Python sets of IP strings are carried as `List String`; the matcher only
  passes them through, so the set structure is irrelevant to the claims.
* The two external HTTP resolvers are oracles: plain functions returning
  `Option` (`none` models the `(None, err)` failure branch).  Calls to them
  are counted in the state so that "external call" claims are statable.
-/

namespace Atlas

/-- Digit-extraction loop for decimal rendering: peels the least significant
digit off `n` each step (the fuel only bounds the recursion; any
`fuel ≥ n > 0` yields all digits). -/
def natCharsAux : Nat → Nat → List Char
  | 0, _ => []
  | fuel + 1, n =>
    if n = 0 then []
    else natCharsAux fuel (n / 10) ++ [Char.ofNat (48 + n % 10)]

/-- Decimal digit characters of a natural number, most significant first;
`0` renders as `"0"`.  This models Python `str(n)` for `n ≥ 0`. -/
def natChars (n : Nat) : List Char :=
  if n = 0 then ['0'] else natCharsAux n n

theorem natCharsAux_zero (fuel : Nat) : natCharsAux fuel 0 = [] := by
  cases fuel <;> rfl

theorem natCharsAux_eq_digits (fuel : Nat) :
    ∀ n : Nat, 0 < n → n ≤ fuel →
      natCharsAux fuel n = (Nat.digits 10 n).reverse.map (fun d => Char.ofNat (48 + d)) := by
  induction fuel with
  | zero => intro n h0 hf; omega
  | succ fuel ih =>
    intro n h0 hf
    have hn : ¬ n = 0 := by omega
    rw [natCharsAux, if_neg hn, Nat.digits_def' (by norm_num : 1 < 10) h0]
    by_cases hq : n / 10 = 0
    · rw [hq, natCharsAux_zero]
      simp
    · rw [ih (n / 10) (Nat.pos_of_ne_zero hq) (by omega)]
      simp

/-- Python `str(int(a))`: decimal rendering of an integer, with a leading
minus sign for negative values. -/
def pyIntChars (a : Int) : List Char :=
  if a < 0 then '-' :: natChars a.natAbs else natChars a.natAbs

/-- Length of the longest common prefix of two character lists: `ip2ci`'s
`zip`/compare/`break` loop body. -/
def lcp : List Char → List Char → Nat
  | c :: cs, d :: ds => if c = d then lcp cs ds + 1 else 0
  | _, _ => 0

/-- `_common_prefix_length` from `correlate_dns_ping.py`: the length of the
longest common prefix of the decimal digit strings of `a` and `b`. -/
def commonPrefixLength (a b : Int) : Nat :=
  lcp (pyIntChars a) (pyIntChars b)

theorem lcp_comm (xs ys : List Char) : lcp xs ys = lcp ys xs := by
  induction xs generalizing ys with
  | nil => cases ys <;> rfl
  | cons c cs ih =>
    cases ys with
    | nil => rfl
    | cons d ds =>
      simp only [lcp]
      by_cases h : c = d
      · subst h; simp [ih]
      · have h2 : ¬ d = c := fun hdc => h hdc.symm
        simp [h, h2]

theorem lcp_self (xs : List Char) : lcp xs xs = xs.length := by
  induction xs with
  | nil => rfl
  | cons c cs ih => simp [lcp, ih]

theorem natChars_length (n : Nat) : (natChars n).length = Nat.log 10 n + 1 := by
  by_cases h : n = 0
  · subst h; simp [natChars]
  · rw [natChars, if_neg h,
      natCharsAux_eq_digits n n (Nat.pos_of_ne_zero h) le_rfl]
    simp [Nat.digits_len 10 n (by norm_num) h]

/-- **C10** — For all non-negative integers `t` and `ts`, the decimal
common-prefix length computed by `_common_prefix_length` is symmetric, and on
a pair of equal arguments it equals the number of decimal digits of the
argument (`Nat.log 10 t + 1`, which is `1` for `t = 0`). -/
theorem common_prefix_length_symm_self (t ts : Nat) :
    commonPrefixLength t ts = commonPrefixLength ts t ∧
    commonPrefixLength t t = Nat.log 10 t + 1 := by
  constructor
  · exact lcp_comm _ _
  · show lcp (pyIntChars t) (pyIntChars t) = _
    rw [lcp_self]
    have ht : pyIntChars (t : Int) = natChars t := by
      simp [pyIntChars, Int.natAbs_ofNat]
    rw [ht, natChars_length]

/-! ## Temporal Matcher (`find_latest_resolved_set`) -/

/-- The running-best state of `find_latest_resolved_set`'s scan: the selected
candidate's IP set, its prefix length (initialised to `-1`), and its time
difference and raw timestamp (initialised to `None`). -/
structure FLRState where
  best_ips : List String
  best_prefix : Int
  best_time_diff : Option Int
  best_t : Option Int
  deriving Repr, DecidableEq

/-- One iteration of `find_latest_resolved_set`'s loop over a candidate
`(t, ips)`: the `select` flag is computed exactly as in the source and, when
set, the whole running best is overwritten with this candidate. -/
def flrStep (ts : Int) (st : FLRState) (p : Int × List String) : FLRState :=
  let t := p.1
  let prefix_len : Int := (commonPrefixLength t ts : Nat)
  let time_diff : Int := |t - ts|
  let select : Bool :=
    if prefix_len > st.best_prefix then true
    else if prefix_len = st.best_prefix then
      match st.best_time_diff with
      | none => true
      | some bd =>
        if time_diff < bd then true
        else if time_diff = bd then
          match st.best_t with
          | none => true
          | some bt => decide (t > bt)
        else false
    else false
  if select then ⟨p.2, prefix_len, some time_diff, some t⟩ else st

/-- `find_latest_resolved_set` from `correlate_dns_ping.py`: scan the
candidates in order, keep a running best, and return its IP set (empty for an
empty candidate list). -/
def find_latest_resolved_set (time_points : List (Int × List String)) (ts : Int) :
    List String :=
  if time_points.isEmpty then []
  else (time_points.foldl (flrStep ts) ⟨[], -1, none, none⟩).best_ips

/-- The selection rule exactly as the claim words it: a candidate replaces the
current best iff it has a strictly larger prefix length, or an equal prefix
length and strictly smaller `|t - ts|`, or equal prefix length, equal time
difference and strictly larger raw timestamp. -/
def claimReplaces (ts : Int) (cur cand : Int × List String) : Prop :=
  commonPrefixLength cand.1 ts > commonPrefixLength cur.1 ts ∨
  (commonPrefixLength cand.1 ts = commonPrefixLength cur.1 ts ∧
    |cand.1 - ts| < |cur.1 - ts|) ∨
  (commonPrefixLength cand.1 ts = commonPrefixLength cur.1 ts ∧
    |cand.1 - ts| = |cur.1 - ts| ∧ cand.1 > cur.1)

instance (ts : Int) (cur cand : Int × List String) :
    Decidable (claimReplaces ts cur cand) := by
  unfold claimReplaces; infer_instance

/-- The scan described by the claim: the first candidate is the initial best,
later candidates replace it exactly when `claimReplaces` holds (so the
earlier-scanned candidate is kept on exact ties), and the empty list yields
the empty IP set. -/
def claimScan (time_points : List (Int × List String)) (ts : Int) : List String :=
  match time_points with
  | [] => []
  | c :: rest =>
    (rest.foldl (fun cur cand => if claimReplaces ts cur cand then cand else cur) c).2

/-- The code's running-best state corresponding to a selected candidate. -/
def stateOf (ts : Int) (c : Int × List String) : FLRState :=
  ⟨c.2, (commonPrefixLength c.1 ts : Nat), some |c.1 - ts|, some c.1⟩

theorem flrStep_stateOf (ts : Int) (cur cand : Int × List String) :
    flrStep ts (stateOf ts cur) cand =
      stateOf ts (if claimReplaces ts cur cand then cand else cur) := by
  simp only [flrStep, stateOf]
  by_cases hrep : claimReplaces ts cur cand
  · simp only [hrep, if_true]
    rcases hrep with h1 | ⟨h2, h3⟩ | ⟨h2, h3, h4⟩
    · have : ((commonPrefixLength cand.1 ts : Nat) : Int) >
          ((commonPrefixLength cur.1 ts : Nat) : Int) := by exact_mod_cast h1
      simp [this]
    · have he : ((commonPrefixLength cand.1 ts : Nat) : Int) =
          ((commonPrefixLength cur.1 ts : Nat) : Int) := by exact_mod_cast h2
      simp [he, h3, lt_irrefl]
    · have he : ((commonPrefixLength cand.1 ts : Nat) : Int) =
          ((commonPrefixLength cur.1 ts : Nat) : Int) := by exact_mod_cast h2
      simp [he, h3, h4, lt_irrefl]
  · simp only [hrep, if_false]
    have h1 : ¬ ((commonPrefixLength cand.1 ts : Nat) : Int) >
        ((commonPrefixLength cur.1 ts : Nat) : Int) := by
      intro h; exact hrep (Or.inl (by exact_mod_cast h))
    simp only [h1, if_false]
    by_cases he : ((commonPrefixLength cand.1 ts : Nat) : Int) =
        ((commonPrefixLength cur.1 ts : Nat) : Int)
    · have he' : commonPrefixLength cand.1 ts = commonPrefixLength cur.1 ts := by
        exact_mod_cast he
      have h3 : ¬ |cand.1 - ts| < |cur.1 - ts| := by
        intro h; exact hrep (Or.inr (Or.inl ⟨he', h⟩))
      by_cases hd : |cand.1 - ts| = |cur.1 - ts|
      · have h4 : ¬ cand.1 > cur.1 := by
          intro h; exact hrep (Or.inr (Or.inr ⟨he', hd, h⟩))
        simp [he, h3, hd, h4]
      · simp [he, h3, hd]
    · simp [he]

theorem foldl_flrStep_stateOf (ts : Int) (rest : List (Int × List String))
    (cur : Int × List String) :
    rest.foldl (flrStep ts) (stateOf ts cur) =
      stateOf ts
        (rest.foldl (fun cur cand => if claimReplaces ts cur cand then cand else cur) cur) := by
  induction rest generalizing cur with
  | nil => rfl
  | cons cand rest ih =>
    simp only [List.foldl_cons, flrStep_stateOf, ih]

theorem flrStep_init (ts : Int) (c : Int × List String) :
    flrStep ts ⟨[], -1, none, none⟩ c = stateOf ts c := by
  simp only [flrStep, stateOf]
  have : ((commonPrefixLength c.1 ts : Nat) : Int) > -1 := by
    have := Int.natCast_nonneg (commonPrefixLength c.1 ts)
    omega
  simp [this]

/-- **C1** — `find_latest_resolved_set` implements exactly the scan described
by the claim: candidates are scanned in index order keeping a running best; a
candidate replaces the best iff it has a strictly larger decimal common-prefix
length with `ts`, or an equal prefix length and strictly smaller `|t - ts|`,
or equal prefix length, equal time difference and strictly larger raw `t`; on
exact three-way ties the earlier candidate is kept; the empty list yields the
empty IP set. -/
theorem find_latest_resolved_set_eq_claimScan
    (time_points : List (Int × List String)) (ts : Int) :
    find_latest_resolved_set time_points ts = claimScan time_points ts := by
  cases time_points with
  | nil => rfl
  | cons c rest =>
    simp only [find_latest_resolved_set, List.isEmpty_cons, claimScan,
      List.foldl_cons, flrStep_init, foldl_flrStep_stateOf]
    rfl

/-! ## Enrichment Cache (`add_ci_to_row`)

Dicts are association lists; the two external resolvers are oracle
functions; the numbers of `ip_to_loc` / `loc_to_ci` invocations are counted
in the state so that "external call" claims can be stated. -/

/-- First-match lookup in an association list (Python `d[k]` / `k in d`). -/
def alookup {α : Type} : List (String × α) → String → Option α
  | [], _ => none
  | (k, v) :: rest, key => if key = k then some v else alookup rest key

/-- Python dict assignment `d[k] = v`: replace the first binding of `k`, or
append a new one. -/
def aset {α : Type} : List (String × α) → String → α → List (String × α)
  | [], key, v => [(key, v)]
  | (k, w) :: rest, key, v =>
    if key = k then (k, v) :: rest else (k, w) :: aset rest key v

theorem alookup_aset {α : Type} (m : List (String × α)) (k k' : String) (v : α) :
    alookup (aset m k v) k' = if k' = k then some v else alookup m k' := by
  induction m with
  | nil => simp [aset, alookup]
  | cons p rest ih =>
    obtain ⟨pk, pv⟩ := p
    by_cases h : k = pk
    · subst h
      by_cases h' : k' = k <;> simp [aset, alookup, h']
    · by_cases h' : k' = pk
      · subst h'
        have hne : ¬ k' = k := fun hk => h hk.symm
        simp [aset, alookup, h, hne]
      · simp [aset, alookup, h, h', ih]

/-- The `location` object of a geolocation response: the code reads
`latitude` and `longitude` with `.get`, so both are optional. -/
structure LocData where
  latitude : Option Int
  longitude : Option Int
  deriving Repr, DecidableEq

/-- A carbon-intensity response / `loc2ci_cache` entry.  Per the external
interface a successful response always carries a numeric `carbonIntensity`;
`datetime` is read with `.get` and branched on, so it stays optional. -/
structure CIData where
  carbonIntensity : Int
  datetime : Option String
  deriving Repr, DecidableEq

/-- The two external resolvers as deterministic oracles.  `none` models the
`(None, err)` failure branch.  The constant API tokens are dropped; the
query-instant string is the `time` argument `loc_to_ci` receives. -/
structure Oracles where
  ipToLoc : String → Option LocData
  locToCi : Option Int → Option Int → String → Option CIData

/-- The shared mutable state of the enrichment path: the two module-level
caches, plus instrumentation counting the external calls made. -/
structure CiState where
  ip2loc : List (String × LocData)
  loc2ci : List (String × CIData)
  locCalls : Nat
  ciCalls : Nat
  deriving Repr, DecidableEq

/-- The cache-validity test of `add_ci_to_row`:
`cached_time and cached_time[:13] == time[:13]` (Python truthiness makes a
missing or empty `datetime` a miss). -/
def freshHit (e : CIData) (time : String) : Bool :=
  match e.datetime with
  | none => false
  | some s => !(s == "") && (s.take 13 == time.take 13)

/-- The carbon stage of `add_ci_to_row`'s loop body, after a location `loc`
has been obtained for `ip`: consult `loc2ci_cache` (a hit is valid only on an
hour-bucket match), otherwise call the carbon resolver, caching its value on
success; return the updated state and the value appended to `ci_list`. -/
def carbonStage (o : Oracles) (time : String) (st : CiState) (ip : String)
    (loc : LocData) : CiState × Option Int :=
  let fetch : CiState × Option Int :=
    let st1 := { st with ciCalls := st.ciCalls + 1 }
    match o.locToCi loc.latitude loc.longitude time with
    | none => (st1, none)
    | some cd => ({ st1 with loc2ci := aset st1.loc2ci ip cd }, some cd.carbonIntensity)
  match alookup st.loc2ci ip with
  | some cached => if freshHit cached time then (st, some cached.carbonIntensity) else fetch
  | none => fetch

/-- One iteration of `add_ci_to_row`'s loop for a single `ip`: the location
stage (cache, then geolocation resolver; a failure yields `none` and skips the
carbon stage) followed by `carbonStage`. -/
def addCiIp (o : Oracles) (time : String) (st : CiState) (ip : String) :
    CiState × Option Int :=
  match alookup st.ip2loc ip with
  | some loc => carbonStage o time st ip loc
  | none =>
    let st1 := { st with locCalls := st.locCalls + 1 }
    match o.ipToLoc ip with
    | none => (st1, none)
    | some loc => carbonStage o time { st1 with ip2loc := aset st1.ip2loc ip loc } ip loc

/-- `add_ci_to_row` from `correlate_dns_ping.py`: fold the per-IP step over
`ip_list`, collecting `ci_list` in order; `dst_ci` starts at `-1` and is set
to the obtained carbon intensity whenever the current IP equals `dst_ip` and
a value was obtained. -/
def add_ci_to_row (o : Oracles) (ip_list : List String) (dst_ip : String)
    (time : String) (st : CiState) : CiState × List (Option Int) × Int :=
  ip_list.foldl
    (fun acc ip =>
      let (st', v) := addCiIp o time acc.1 ip
      (st', acc.2.1 ++ [v],
        match v with
        | some c => if ip = dst_ip then c else acc.2.2
        | none => acc.2.2))
    (st, [], -1)

/-! ### The per-IP outcome function and its invariance

`outcome o time st ip` is the value the lookup chain yields for `ip` from
state `st`: the cached-or-fetched location, then the cached-if-fresh-or-
fetched carbon intensity.  It characterises the per-IP step and is invariant
under the cache mutations the steps perform, which is what makes the
row-level claims provable by a fold. -/

/-- The location the chain uses for `ip` from `st` (`none` = lookup fails). -/
def locOutcome (o : Oracles) (st : CiState) (ip : String) : Option LocData :=
  match alookup st.ip2loc ip with
  | some loc => some loc
  | none => o.ipToLoc ip

/-- The carbon value the chain yields for `ip` with location `loc` from `st`. -/
def ciOutcome (o : Oracles) (time : String) (st : CiState) (ip : String)
    (loc : LocData) : Option Int :=
  match alookup st.loc2ci ip with
  | some cached =>
    if freshHit cached time then some cached.carbonIntensity
    else (o.locToCi loc.latitude loc.longitude time).map (·.carbonIntensity)
  | none => (o.locToCi loc.latitude loc.longitude time).map (·.carbonIntensity)

/-- The value `add_ci_to_row` records for `ip` when processed from state
`st`: `none` exactly when the location or the carbon lookup fails. -/
def outcome (o : Oracles) (time : String) (st : CiState) (ip : String) : Option Int :=
  (locOutcome o st ip).bind (fun loc => ciOutcome o time st ip loc)

theorem carbonStage_snd (o : Oracles) (time : String) (st : CiState)
    (ip : String) (loc : LocData) :
    (carbonStage o time st ip loc).2 = ciOutcome o time st ip loc := by
  simp only [carbonStage, ciOutcome]
  cases alookup st.loc2ci ip with
  | none => cases o.locToCi loc.latitude loc.longitude time <;> simp
  | some cached =>
    by_cases h : freshHit cached time
    · simp [h]
    · simp only [h, if_false, Bool.false_eq_true]
      cases o.locToCi loc.latitude loc.longitude time <;> simp

theorem addCiIp_snd (o : Oracles) (time : String) (st : CiState) (ip : String) :
    (addCiIp o time st ip).2 = outcome o time st ip := by
  simp only [addCiIp, outcome, locOutcome]
  cases h : alookup st.ip2loc ip with
  | some loc => simp [carbonStage_snd]
  | none =>
    cases ho : o.ipToLoc ip with
    | none => simp
    | some loc =>
      simp only [Option.bind_some]
      rw [carbonStage_snd]
      simp [ciOutcome]

theorem locOutcome_eq_of_ip2loc (o : Oracles) {st st' : CiState}
    (h : st'.ip2loc = st.ip2loc) (ip : String) :
    locOutcome o st' ip = locOutcome o st ip := by
  unfold locOutcome; rw [h]

theorem ciOutcome_eq_of_loc2ci (o : Oracles) (time : String) {st st' : CiState}
    (h : st'.loc2ci = st.loc2ci) (ip : String) (loc : LocData) :
    ciOutcome o time st' ip loc = ciOutcome o time st ip loc := by
  unfold ciOutcome; rw [h]

theorem carbonStage_ip2loc (o : Oracles) (time : String) (st : CiState)
    (ip : String) (loc : LocData) :
    (carbonStage o time st ip loc).1.ip2loc = st.ip2loc := by
  unfold carbonStage
  cases alookup st.loc2ci ip with
  | some cached =>
    by_cases hf : freshHit cached time
    · simp [hf]
    · simp only [hf, Bool.false_eq_true, if_false]
      cases o.locToCi loc.latitude loc.longitude time <;> rfl
  | none => cases o.locToCi loc.latitude loc.longitude time <;> rfl

/-- The carbon stage, run for `ip'` with the location that `locOutcome`
assigns to `ip'`, does not change any IP's lookup outcome. -/
theorem outcome_carbonStage (o : Oracles) (time : String) (st : CiState)
    (ip' ip : String) (loc' : LocData)
    (hloc : locOutcome o st ip' = some loc') :
    outcome o time (carbonStage o time st ip' loc').1 ip = outcome o time st ip := by
  have hip2loc := carbonStage_ip2loc o time st ip' loc'
  unfold outcome
  rw [locOutcome_eq_of_ip2loc o hip2loc]
  cases hL : locOutcome o st ip with
  | none => rfl
  | some L =>
    simp only [Option.some_bind]
    unfold carbonStage at hip2loc ⊢
    cases hc : alookup st.loc2ci ip' with
    | some cached =>
      by_cases hf : freshHit cached time
      · simp [hf]
      · simp only [hf, Bool.false_eq_true, if_false]
        cases hfetch : o.locToCi loc'.latitude loc'.longitude time with
        | none => rfl
        | some cd =>
          by_cases hip : ip = ip'
          · subst hip
            have hLloc : L = loc' := by
              rw [hL] at hloc; exact (Option.some.injEq _ _ ▸ hloc : _)
            subst hLloc
            show ciOutcome o time _ ip L = ciOutcome o time st ip L
            unfold ciOutcome
            simp only [alookup_aset, if_pos rfl, hc, hfetch]
            by_cases hf2 : freshHit cd time <;> simp [hf2, hfetch, hf]
          · show ciOutcome o time _ ip L = ciOutcome o time st ip L
            unfold ciOutcome
            simp only [alookup_aset, hip, if_false]
    | none =>
      cases hfetch : o.locToCi loc'.latitude loc'.longitude time with
      | none => rfl
      | some cd =>
        by_cases hip : ip = ip'
        · subst hip
          have hLloc : L = loc' := by
            rw [hL] at hloc; exact (Option.some.injEq _ _ ▸ hloc : _)
          subst hLloc
          show ciOutcome o time _ ip L = ciOutcome o time st ip L
          unfold ciOutcome
          simp only [alookup_aset, if_pos rfl, hc, hfetch]
          by_cases hf2 : freshHit cd time <;> simp [hf2, hfetch]
        · show ciOutcome o time _ ip L = ciOutcome o time st ip L
          unfold ciOutcome
          simp only [alookup_aset, hip, if_false]

/-- Processing one IP does not change any IP's lookup outcome. -/
theorem outcome_addCiIp (o : Oracles) (time : String) (st : CiState)
    (ip' ip : String) :
    outcome o time (addCiIp o time st ip').1 ip = outcome o time st ip := by
  unfold addCiIp
  cases hL : alookup st.ip2loc ip' with
  | some loc =>
    exact outcome_carbonStage o time st ip' ip loc (by unfold locOutcome; rw [hL])
  | none =>
    cases ho : o.ipToLoc ip' with
    | none =>
      show outcome o time { st with locCalls := st.locCalls + 1 } ip = outcome o time st ip
      rfl
    | some loc =>
      set st2 : CiState :=
        { st with locCalls := st.locCalls + 1, ip2loc := aset st.ip2loc ip' loc } with hst2
      have hout : ∀ j, outcome o time st2 j = outcome o time st j := by
        intro j
        unfold outcome locOutcome ciOutcome
        by_cases hj : j = ip'
        · subst hj
          simp [hst2, alookup_aset, hL, ho]
        · simp [hst2, alookup_aset, hj]
      have hloc2 : locOutcome o st2 ip' = some loc := by
        unfold locOutcome
        simp [hst2, alookup_aset]
      calc outcome o time (carbonStage o time st2 ip' loc).1 ip
          = outcome o time st2 ip := outcome_carbonStage o time st2 ip' ip loc hloc2
        _ = outcome o time st ip := hout ip

/-- The state after processing a list of IPs. -/
def runState (o : Oracles) (time : String) (st : CiState) (ips : List String) : CiState :=
  ips.foldl (fun s ip => (addCiIp o time s ip).1) st

/-- The `dst_ci` accumulator expressed over the initial state's outcomes. -/
def dstFold (o : Oracles) (time : String) (st : CiState) (dst_ip : String)
    (ips : List String) (d : Int) : Int :=
  ips.foldl
    (fun d ip =>
      match outcome o time st ip with
      | some c => if ip = dst_ip then c else d
      | none => d) d

theorem outcome_runState (o : Oracles) (time : String) (ips : List String)
    (st : CiState) (ip : String) :
    outcome o time (runState o time st ips) ip = outcome o time st ip := by
  induction ips generalizing st with
  | nil => rfl
  | cons j rest ih =>
    show outcome o time (runState o time (addCiIp o time st j).1 rest) ip = _
    rw [ih, outcome_addCiIp]

theorem add_ci_to_row_foldl (o : Oracles) (time : String) (dst_ip : String) :
    ∀ (ips : List String) (st : CiState) (acc : List (Option Int)) (d : Int),
    ips.foldl
      (fun acc ip =>
        let (st', v) := addCiIp o time acc.1 ip
        (st', acc.2.1 ++ [v],
          match v with
          | some c => if ip = dst_ip then c else acc.2.2
          | none => acc.2.2))
      (st, acc, d) =
    (runState o time st ips, acc ++ ips.map (outcome o time st),
      dstFold o time st dst_ip ips d) := by
  intro ips
  induction ips with
  | nil => intro st acc d; simp [runState, dstFold]
  | cons j rest ih =>
    intro st acc d
    simp only [List.foldl_cons]
    have hv : (addCiIp o time st j).2 = outcome o time st j := addCiIp_snd o time st j
    rcases hstep : addCiIp o time st j with ⟨st', v⟩
    rw [ih]
    have hst' : st' = (addCiIp o time st j).1 := by rw [hstep]
    have hv' : v = outcome o time st j := by rw [← hv, hstep]
    subst hst' hv'
    have houts : rest.map (outcome o time (addCiIp o time st j).1) =
        rest.map (outcome o time st) := by
      apply List.map_congr_left
      intro a _
      exact outcome_addCiIp o time st j a
    have hdst : dstFold o time (addCiIp o time st j).1 dst_ip rest =
        dstFold o time st dst_ip rest := by
      funext d0
      unfold dstFold
      have hfun : (fun d ip =>
          match outcome o time (addCiIp o time st j).1 ip with
          | some c => if ip = dst_ip then c else d
          | none => d) =
          (fun (d : Int) ip =>
            match outcome o time st ip with
            | some c => if ip = dst_ip then c else d
            | none => d) := by
        funext d1 ip1
        rw [outcome_addCiIp]
      rw [hfun]
    rw [houts, hdst]
    simp [runState, dstFold, List.append_assoc]

/-- The closed form of `add_ci_to_row`: the final state is the fold of the
per-IP steps, `ci_list` is `ip_list` mapped through the initial state's
lookup outcome, and `dst_ci` is the fold of the outcomes against `dst_ip`. -/
theorem add_ci_to_row_eq (o : Oracles) (ip_list : List String) (dst_ip : String)
    (time : String) (st : CiState) :
    add_ci_to_row o ip_list dst_ip time st =
      (runState o time st ip_list, ip_list.map (outcome o time st),
        dstFold o time st dst_ip ip_list (-1)) := by
  unfold add_ci_to_row
  rw [add_ci_to_row_foldl]
  simp

theorem dstFold_not_mem (o : Oracles) (time : String) (st : CiState)
    (dst_ip : String) (ips : List String) (d : Int) (h : dst_ip ∉ ips) :
    dstFold o time st dst_ip ips d = d := by
  induction ips generalizing d with
  | nil => rfl
  | cons j rest ih =>
    have hj : j ≠ dst_ip := fun hj => h (hj ▸ List.mem_cons_self j rest)
    have hrest : dst_ip ∉ rest := fun hr => h (List.mem_cons_of_mem j hr)
    show dstFold o time st dst_ip rest
      (match outcome o time st j with
        | some c => if j = dst_ip then c else d
        | none => d) = d
    cases outcome o time st j with
    | none => exact ih d hrest
    | some c => simp only [hj, if_false]; exact ih d hrest

/-- **C9** — `add_ci_to_row` never propagates a resolver failure: for every
oracle behaviour, IP list, destination IP, query instant and cache state it
returns one `ci_list` entry per input IP in input order — the entry at each
position being precisely the lookup-chain outcome for that IP (`none` exactly
when its location or carbon lookup fails, the carbon number otherwise) — so
`ci_list` has the length of `ip_list`; and `dst_ci` is the sentinel `-1`
whenever `dst_ip` does not occur in `ip_list`. -/
theorem add_ci_to_row_total (o : Oracles) (ip_list : List String)
    (dst_ip : String) (time : String) (st : CiState) :
    (add_ci_to_row o ip_list dst_ip time st).2.1 =
        ip_list.map (outcome o time st) ∧
    (add_ci_to_row o ip_list dst_ip time st).2.1.length = ip_list.length ∧
    (dst_ip ∉ ip_list → (add_ci_to_row o ip_list dst_ip time st).2.2 = -1) := by
  rw [add_ci_to_row_eq]
  refine ⟨rfl, by simp, fun h => dstFold_not_mem o time st dst_ip ip_list (-1) h⟩

/-- Witness for `add_ci_to_row_total` at a concrete input: a destination IP
absent from the list yields the `-1` sentinel, and `ci_list` is aligned. -/
theorem add_ci_to_row_total_witness :
    (add_ci_to_row
        ⟨fun _ => some ⟨some 1, some 2⟩, fun _ _ t => some ⟨100, some t⟩⟩
        ["1.2.3.4"] "9.9.9.9" "2025-10-07T15:00:00" ⟨[], [], 0, 0⟩).2.1 =
      ["1.2.3.4"].map
        (outcome ⟨fun _ => some ⟨some 1, some 2⟩, fun _ _ t => some ⟨100, some t⟩⟩
          "2025-10-07T15:00:00" ⟨[], [], 0, 0⟩) ∧
    (add_ci_to_row
        ⟨fun _ => some ⟨some 1, some 2⟩, fun _ _ t => some ⟨100, some t⟩⟩
        ["1.2.3.4"] "9.9.9.9" "2025-10-07T15:00:00" ⟨[], [], 0, 0⟩).2.1.length =
      (["1.2.3.4"] : List String).length ∧
    (add_ci_to_row
        ⟨fun _ => some ⟨some 1, some 2⟩, fun _ _ t => some ⟨100, some t⟩⟩
        ["1.2.3.4"] "9.9.9.9" "2025-10-07T15:00:00" ⟨[], [], 0, 0⟩).2.2 = -1 := by
  have h := add_ci_to_row_total
    ⟨fun _ => some ⟨some 1, some 2⟩, fun _ _ t => some ⟨100, some t⟩⟩
    ["1.2.3.4"] "9.9.9.9" "2025-10-07T15:00:00" ⟨[], [], 0, 0⟩
  exact ⟨h.1, h.2.1, h.2.2 (by decide)⟩

/-- When the location is cached and the carbon entry is hour-fresh, the
per-IP step is a pure cache hit: it returns the cached value and leaves the
state (caches and call counters) completely unchanged. -/
theorem addCiIp_fresh_hit (o : Oracles) (time : String) (st : CiState)
    (ip : String) (L : LocData) (e : CIData)
    (h1 : alookup st.ip2loc ip = some L)
    (h2 : alookup st.loc2ci ip = some e)
    (h3 : freshHit e time = true) :
    addCiIp o time st ip = (st, some e.carbonIntensity) := by
  unfold addCiIp carbonStage
  rw [h1, h2]
  simp [h3]

/-- **C2** — In `add_ci_to_row` (whose per-IP body is `addCiIp`), with the
IP's location cached, a cached carbon entry with stored datetime string `s`
is used without any external call if and only if the first 13 characters of
`s` equal the first 13 characters of the query instant: on a match the step
returns the cached value with the state untouched; on a mismatch the entry is
treated as a miss, the carbon resolver is called (`ciCalls` grows by one),
and on success the single cache entry for that IP is overwritten with the new
value.  In particular an entry stored at `"2025-10-07T15:00:00"` is a hit for
query instant `"2025-10-07T15:59:00"` and a miss for `"2025-10-07T16:00:00"`. -/
theorem carbon_cache_hit_iff_hour (o : Oracles) (time : String) (st : CiState)
    (ip : String) (L : LocData) (e : CIData) (s : String)
    (hL : alookup st.ip2loc ip = some L)
    (he : alookup st.loc2ci ip = some e)
    (hd : e.datetime = some s) (hs : s ≠ "") :
    (s.take 13 = time.take 13 →
      addCiIp o time st ip = (st, some e.carbonIntensity)) ∧
    (s.take 13 ≠ time.take 13 →
      (addCiIp o time st ip).1.ciCalls = st.ciCalls + 1 ∧
      ∀ cd, o.locToCi L.latitude L.longitude time = some cd →
        alookup (addCiIp o time st ip).1.loc2ci ip = some cd ∧
        (addCiIp o time st ip).2 = some cd.carbonIntensity) ∧
    freshHit ⟨0, some "2025-10-07T15:00:00"⟩ "2025-10-07T15:59:00" = true ∧
    freshHit ⟨0, some "2025-10-07T15:00:00"⟩ "2025-10-07T16:00:00" = false := by
  refine ⟨fun hmatch => ?_, fun hmiss => ?_, by decide, by decide⟩
  · exact addCiIp_fresh_hit o time st ip L e hL he
      (by simp [freshHit, hd, hs, hmatch])
  · have hfresh : freshHit e time = false := by
      simp [freshHit, hd, hs, hmiss]
    unfold addCiIp carbonStage
    rw [hL, he]
    simp only [hfresh, Bool.false_eq_true, if_false]
    cases hfetch : o.locToCi L.latitude L.longitude time with
    | none =>
      refine ⟨rfl, fun cd hcd => ?_⟩
      exact Option.noConfusion hcd
    | some cd =>
      refine ⟨rfl, fun cd' hcd => ?_⟩
      cases hcd
      constructor
      · show alookup (aset st.loc2ci ip cd) ip = some cd
        simp [alookup_aset]
      · rfl

/-- Witness for `carbon_cache_hit_iff_hour`: a concrete state whose carbon
entry is stamped `"2025-10-07T15:00:00"`, queried at `"2025-10-07T15:59:00"`,
is a hit — the step returns the cached `450` with the state untouched. -/
theorem carbon_cache_hit_iff_hour_witness :
    addCiIp ⟨fun _ => none, fun _ _ _ => none⟩ "2025-10-07T15:59:00"
        ⟨[("8.8.8.8", ⟨some 1, some 2⟩)],
         [("8.8.8.8", ⟨450, some "2025-10-07T15:00:00"⟩)], 0, 0⟩ "8.8.8.8" =
      (⟨[("8.8.8.8", ⟨some 1, some 2⟩)],
        [("8.8.8.8", ⟨450, some "2025-10-07T15:00:00"⟩)], 0, 0⟩,
       some (450 : Int)) :=
  (carbon_cache_hit_iff_hour ⟨fun _ => none, fun _ _ _ => none⟩
    "2025-10-07T15:59:00"
    ⟨[("8.8.8.8", ⟨some 1, some 2⟩)],
     [("8.8.8.8", ⟨450, some "2025-10-07T15:00:00"⟩)], 0, 0⟩
    "8.8.8.8" ⟨some 1, some 2⟩ ⟨450, some "2025-10-07T15:00:00"⟩
    "2025-10-07T15:00:00" (by decide) (by decide) rfl (by decide)).1 (by decide)

/-- An always-succeeding oracle pair whose carbon responses are stamped with
the query instant itself, so a fetched entry is fresh for its own hour. -/
def happyOracles : Oracles where
  ipToLoc := fun _ => some ⟨some 1, some 2⟩
  locToCi := fun _ _ t => some ⟨100, some t⟩

/-- Oracles whose geolocation succeeds but whose carbon lookup always fails. -/
def ciFailOracles : Oracles where
  ipToLoc := fun _ => some ⟨some 1, some 2⟩
  locToCi := fun _ _ _ => none

/-- The state of a fresh run: empty caches, no external calls yet. -/
def emptyCiState : CiState := ⟨[], [], 0, 0⟩

/-- **C3 counterexample** — Three `add_ci_to_row` calls for the same IP at
query instants `15:00`, `16:00`, `15:00` (all lookups succeeding, each carbon
response stamped with its own query instant): the third call's instant falls
in the same hour-bucket as the first call's, which was fetched and cached,
yet the carbon resolver is called again (`ciCalls` reaches 3, one call per
request): because the cache keeps a single entry per IP, the second call's
`16` entry overwrote the `15` one, so the run performs two external lookups
for the (IP, `"2025-10-07T15"`) combination, refuting the claim. -/
theorem per_bucket_amortization_counterexample :
    (add_ci_to_row happyOracles ["1.1.1.1"] "1.1.1.1" "2025-10-07T15:00:00"
      emptyCiState).1.ciCalls = 1 ∧
    (add_ci_to_row happyOracles ["1.1.1.1"] "1.1.1.1" "2025-10-07T16:00:00"
      (add_ci_to_row happyOracles ["1.1.1.1"] "1.1.1.1" "2025-10-07T15:00:00"
        emptyCiState).1).1.ciCalls = 2 ∧
    (add_ci_to_row happyOracles ["1.1.1.1"] "1.1.1.1" "2025-10-07T15:00:00"
      (add_ci_to_row happyOracles ["1.1.1.1"] "1.1.1.1" "2025-10-07T16:00:00"
        (add_ci_to_row happyOracles ["1.1.1.1"] "1.1.1.1" "2025-10-07T15:00:00"
          emptyCiState).1).1).1.ciCalls = 3 := by
  refine ⟨rfl, rfl, rfl⟩

/-- **C3 (amended)** — The at-most-one-external-lookup amortization holds per
IP only while the single cached carbon entry stays in the query instant's
hour-bucket: a request for an IP whose location is cached and whose cached
carbon entry's datetime shares the query instant's first 13 characters is
served entirely from the caches — neither resolver is called and the state is
unchanged.  Since each IP keeps one carbon entry, a run that returns to an
earlier hour-bucket refetches (see the counterexample). -/
theorem fresh_bucket_served_from_cache (o : Oracles) (time : String)
    (st : CiState) (ip : String) (L : LocData) (e : CIData)
    (h1 : alookup st.ip2loc ip = some L)
    (h2 : alookup st.loc2ci ip = some e)
    (h3 : freshHit e time = true) :
    (addCiIp o time st ip).1.locCalls = st.locCalls ∧
    (addCiIp o time st ip).1.ciCalls = st.ciCalls ∧
    (addCiIp o time st ip).1 = st := by
  rw [addCiIp_fresh_hit o time st ip L e h1 h2 h3]
  exact ⟨rfl, rfl, rfl⟩

/-- Witness for `fresh_bucket_served_from_cache` at a concrete cached state:
the request is served with the state (including both call counters)
unchanged. -/
theorem fresh_bucket_served_from_cache_witness :
    (addCiIp happyOracles "2025-10-07T15:59:00"
        ⟨[("1.1.1.1", ⟨some 1, some 2⟩)],
         [("1.1.1.1", ⟨100, some "2025-10-07T15:00:00"⟩)], 1, 1⟩ "1.1.1.1").1.locCalls = 1 ∧
    (addCiIp happyOracles "2025-10-07T15:59:00"
        ⟨[("1.1.1.1", ⟨some 1, some 2⟩)],
         [("1.1.1.1", ⟨100, some "2025-10-07T15:00:00"⟩)], 1, 1⟩ "1.1.1.1").1.ciCalls = 1 ∧
    (addCiIp happyOracles "2025-10-07T15:59:00"
        ⟨[("1.1.1.1", ⟨some 1, some 2⟩)],
         [("1.1.1.1", ⟨100, some "2025-10-07T15:00:00"⟩)], 1, 1⟩ "1.1.1.1").1 =
      ⟨[("1.1.1.1", ⟨some 1, some 2⟩)],
       [("1.1.1.1", ⟨100, some "2025-10-07T15:00:00"⟩)], 1, 1⟩ :=
  fresh_bucket_served_from_cache happyOracles "2025-10-07T15:59:00"
    ⟨[("1.1.1.1", ⟨some 1, some 2⟩)],
     [("1.1.1.1", ⟨100, some "2025-10-07T15:00:00"⟩)], 1, 1⟩ "1.1.1.1"
    ⟨some 1, some 2⟩ ⟨100, some "2025-10-07T15:00:00"⟩ rfl rfl (by decide)

theorem dstFold_congr (o : Oracles) (time : String) {st st' : CiState}
    (h : ∀ ip, outcome o time st' ip = outcome o time st ip)
    (dst_ip : String) (ips : List String) (d : Int) :
    dstFold o time st' dst_ip ips d = dstFold o time st dst_ip ips d := by
  induction ips generalizing d with
  | nil => rfl
  | cons j rest ih =>
    show dstFold o time st' dst_ip rest _ = dstFold o time st dst_ip rest _
    simp only [h]
    exact ih _

theorem runState_all_fresh (o : Oracles) (time : String) (ips : List String)
    (st : CiState)
    (h : ∀ ip ∈ ips, ∃ L e, alookup st.ip2loc ip = some L ∧
        alookup st.loc2ci ip = some e ∧ freshHit e time = true) :
    runState o time st ips = st := by
  induction ips with
  | nil => rfl
  | cons j rest ih =>
    obtain ⟨L, e, h1, h2, h3⟩ := h j (List.mem_cons_self j rest)
    show runState o time (addCiIp o time st j).1 rest = st
    rw [addCiIp_fresh_hit o time st j L e h1 h2 h3]
    exact ih (fun ip hip => h ip (List.mem_cons_of_mem j hip))

/-- **C4 counterexample** — With a carbon resolver that fails, a second
`add_ci_to_row` call with identical inputs from the state left by the first
returns the same `([None], -1)` but performs one further external carbon
call (`ciCalls` goes from 1 to 2), refuting "zero external resolver calls on
the second run". -/
theorem second_run_zero_calls_counterexample :
    (add_ci_to_row ciFailOracles ["1.1.1.1"] "1.1.1.1" "2025-10-07T15:00:00"
      emptyCiState).2 = ([none], -1) ∧
    (add_ci_to_row ciFailOracles ["1.1.1.1"] "1.1.1.1" "2025-10-07T15:00:00"
      (add_ci_to_row ciFailOracles ["1.1.1.1"] "1.1.1.1" "2025-10-07T15:00:00"
        emptyCiState).1).2 = ([none], -1) ∧
    (add_ci_to_row ciFailOracles ["1.1.1.1"] "1.1.1.1" "2025-10-07T15:00:00"
      emptyCiState).1.ciCalls = 1 ∧
    (add_ci_to_row ciFailOracles ["1.1.1.1"] "1.1.1.1" "2025-10-07T15:00:00"
      (add_ci_to_row ciFailOracles ["1.1.1.1"] "1.1.1.1" "2025-10-07T15:00:00"
        emptyCiState).1).1.ciCalls = 2 := by
  refine ⟨rfl, rfl, rfl, rfl⟩

/-- **C4 (amended)** — A second `add_ci_to_row` call with the same `ip_list`,
`dst_ip` and query instant, from the cache state left by the first call,
always returns exactly the same `(ci_list, dst_ci)`; it performs zero
external resolver calls provided the first call left every listed IP with a
cached location and an hour-fresh carbon entry — which can fail to hold when
a lookup failed or a fetched datetime lies outside the query instant's
hour-bucket (see the counterexample). -/
theorem add_ci_to_row_second_run (o : Oracles) (ips : List String)
    (dst_ip time : String) (st : CiState) :
    (add_ci_to_row o ips dst_ip time (add_ci_to_row o ips dst_ip time st).1).2 =
      (add_ci_to_row o ips dst_ip time st).2 ∧
    ((∀ ip ∈ ips, ∃ L e,
        alookup (add_ci_to_row o ips dst_ip time st).1.ip2loc ip = some L ∧
        alookup (add_ci_to_row o ips dst_ip time st).1.loc2ci ip = some e ∧
        freshHit e time = true) →
      (add_ci_to_row o ips dst_ip time (add_ci_to_row o ips dst_ip time st).1).1.locCalls =
        (add_ci_to_row o ips dst_ip time st).1.locCalls ∧
      (add_ci_to_row o ips dst_ip time (add_ci_to_row o ips dst_ip time st).1).1.ciCalls =
        (add_ci_to_row o ips dst_ip time st).1.ciCalls) := by
  constructor
  · rw [add_ci_to_row_eq, add_ci_to_row_eq]
    simp only [add_ci_to_row_eq, Prod.mk.injEq]
    constructor
    · exact List.map_congr_left fun ip _ => outcome_runState o time ips st ip
    · exact dstFold_congr o time (fun ip => outcome_runState o time ips st ip)
        dst_ip ips (-1)
  · intro h
    have hrun : (add_ci_to_row o ips dst_ip time
        (add_ci_to_row o ips dst_ip time st).1).1 =
        (add_ci_to_row o ips dst_ip time st).1 := by
      rw [add_ci_to_row_eq o ips dst_ip time (add_ci_to_row o ips dst_ip time st).1]
      exact runState_all_fresh o time ips _ h
    rw [hrun]
    exact ⟨rfl, rfl⟩

/-- Witness for `add_ci_to_row_second_run`: with all lookups succeeding and
the carbon response stamped with the query instant, the second run returns
the first run's results and leaves both call counters unchanged. -/
theorem add_ci_to_row_second_run_witness :
    (add_ci_to_row happyOracles ["1.1.1.1"] "1.1.1.1" "2025-10-07T15:00:00"
        (add_ci_to_row happyOracles ["1.1.1.1"] "1.1.1.1" "2025-10-07T15:00:00"
          emptyCiState).1).2 =
      (add_ci_to_row happyOracles ["1.1.1.1"] "1.1.1.1" "2025-10-07T15:00:00"
        emptyCiState).2 ∧
    ((add_ci_to_row happyOracles ["1.1.1.1"] "1.1.1.1" "2025-10-07T15:00:00"
        (add_ci_to_row happyOracles ["1.1.1.1"] "1.1.1.1" "2025-10-07T15:00:00"
          emptyCiState).1).1.locCalls =
      (add_ci_to_row happyOracles ["1.1.1.1"] "1.1.1.1" "2025-10-07T15:00:00"
        emptyCiState).1.locCalls ∧
     (add_ci_to_row happyOracles ["1.1.1.1"] "1.1.1.1" "2025-10-07T15:00:00"
        (add_ci_to_row happyOracles ["1.1.1.1"] "1.1.1.1" "2025-10-07T15:00:00"
          emptyCiState).1).1.ciCalls =
      (add_ci_to_row happyOracles ["1.1.1.1"] "1.1.1.1" "2025-10-07T15:00:00"
        emptyCiState).1.ciCalls) :=
  ⟨(add_ci_to_row_second_run happyOracles ["1.1.1.1"] "1.1.1.1"
      "2025-10-07T15:00:00" emptyCiState).1,
   (add_ci_to_row_second_run happyOracles ["1.1.1.1"] "1.1.1.1"
      "2025-10-07T15:00:00" emptyCiState).2
    (by
      intro ip hip
      have h1 : ip = "1.1.1.1" := by
        simpa using hip
      subst h1
      exact ⟨⟨some 1, some 2⟩, ⟨100, some "2025-10-07T15:00:00"⟩, rfl, rfl, by decide⟩)⟩

/-! ## `loc_to_ci` URL construction (`ip2ci.py`) -/

/-- `urllib.parse.urlencode({"lat": lat, "lon": lon})` (percent-encoding of
the values elided — the claims do not depend on it). -/
def urlencodeLatLon (lat lon : String) : String :=
  "lat=" ++ lat ++ "&lon=" ++ lon

/-- `urllib.parse.urlencode({"lat": lat, "lon": lon, "datetime": t})`. -/
def urlencodeLatLonTime (lat lon t : String) : String :=
  "lat=" ++ lat ++ "&lon=" ++ lon ++ "&datetime=" ++ t

/-- The URL construction of `loc_to_ci` in `ip2ci.py`: the module-global
`ELECTRICITYMAPS_ENDPOINT` (threaded here as `endpoint`) has `"/latest"` or
`"/past"` appended to it with `+=` under a `global` declaration, and the
request URL is then built from the mutated value.  Returns the new value of
the global together with the URL requested. -/
def loc_to_ci_url (endpoint lat lon : String) (time : Option String) :
    String × String :=
  match time with
  | none =>
    let e := endpoint ++ "/latest"
    (e, e ++ "?" ++ urlencodeLatLon lat lon)
  | some t =>
    let e := endpoint ++ "/past"
    (e, e ++ "?" ++ urlencodeLatLonTime lat lon t)

/-- **C5** — `loc_to_ci` permanently appends `"/latest"` or `"/past"` to the
module-global `ELECTRICITYMAPS_ENDPOINT`, so two calls with identical
arguments do not target the same URL: after one past-instant call the global
has grown by `"/past"`, a second identical call targets an endpoint ending in
`"/past/past"` and requests a URL different from the first call's — the URL
is a function of the mutated global, not of the arguments alone. -/
theorem loc_to_ci_endpoint_mutation (endpoint lat lon t : String) :
    (loc_to_ci_url endpoint lat lon none).1 = endpoint ++ "/latest" ∧
    (loc_to_ci_url endpoint lat lon (some t)).1 = endpoint ++ "/past" ∧
    (loc_to_ci_url (loc_to_ci_url endpoint lat lon (some t)).1 lat lon
        (some t)).1 = endpoint ++ "/past/past" ∧
    (loc_to_ci_url (loc_to_ci_url endpoint lat lon (some t)).1 lat lon
        (some t)).2 ≠ (loc_to_ci_url endpoint lat lon (some t)).2 := by
  refine ⟨rfl, rfl, ?_, ?_⟩
  · show (endpoint ++ "/past") ++ "/past" = endpoint ++ "/past/past"
    rw [String.append_assoc]
    congr 1
  · intro h
    have hlen := congrArg String.length h
    have h5 : ("/past" : String).length = 5 := rfl
    simp only [loc_to_ci_url, String.length_append, h5] at hlen
    omega

/-- Witness instantiating `loc_to_ci_endpoint_mutation` at the module's
initial endpoint value and concrete coordinates. -/
theorem loc_to_ci_endpoint_mutation_witness :
    (loc_to_ci_url "https://api.electricitymaps.com/v3/carbon-intensity"
        "1" "2" none).1 =
      "https://api.electricitymaps.com/v3/carbon-intensity" ++ "/latest" ∧
    (loc_to_ci_url "https://api.electricitymaps.com/v3/carbon-intensity"
        "1" "2" (some "2025-10-07T15:00:00")).1 =
      "https://api.electricitymaps.com/v3/carbon-intensity" ++ "/past" ∧
    (loc_to_ci_url
        (loc_to_ci_url "https://api.electricitymaps.com/v3/carbon-intensity"
          "1" "2" (some "2025-10-07T15:00:00")).1 "1" "2"
        (some "2025-10-07T15:00:00")).1 =
      "https://api.electricitymaps.com/v3/carbon-intensity" ++ "/past/past" ∧
    (loc_to_ci_url
        (loc_to_ci_url "https://api.electricitymaps.com/v3/carbon-intensity"
          "1" "2" (some "2025-10-07T15:00:00")).1 "1" "2"
        (some "2025-10-07T15:00:00")).2 ≠
      (loc_to_ci_url "https://api.electricitymaps.com/v3/carbon-intensity"
        "1" "2" (some "2025-10-07T15:00:00")).2 :=
  loc_to_ci_endpoint_mutation "https://api.electricitymaps.com/v3/carbon-intensity"
    "1" "2" "2025-10-07T15:00:00"

/-! ## CSV round trip: `json.dumps` (writer) vs `parse_list_of_ints` (reader) -/

/-- Python `str(n)` / the JSON rendering of an integer. -/
def intRepr (n : Int) : String := ⟨pyIntChars n⟩

/-- One cell of `json.dumps(ci_list)`: `None ↦ "null"`, a number ↦ its
decimal rendering. -/
def jsonDumpsCell : Option Int → String
  | none => "null"
  | some n => intRepr n

/-- `json.dumps` of a `ci_list` with the default `", "` separator:
`[10, None, 20] ↦ "[10, null, 20]"`. -/
def jsonDumpsCiList (xs : List (Option Int)) : String :=
  "[" ++ String.intercalate ", " (xs.map jsonDumpsCell) ++ "]"

/-- Drop leading spaces (the whitespace `ast.literal_eval` tolerates between
tokens of the list literals at hand). -/
def skipSpaces : List Char → List Char
  | ' ' :: rest => skipSpaces rest
  | cs => cs

/-- Value of a run of decimal digit characters. -/
def digitsVal (ds : List Char) : Nat :=
  ds.foldl (fun a c => a * 10 + (c.toNat - 48)) 0

/-- Consume a nonempty run of decimal digits. -/
def parseDigits (cs : List Char) : Option (Nat × List Char) :=
  let ds := cs.takeWhile (·.isDigit)
  if ds.isEmpty then none
  else some (digitsVal ds, cs.drop ds.length)

/-- Consume a Python integer literal (optional minus sign, then digits). -/
def parsePyInt : List Char → Option (Int × List Char)
  | '-' :: cs => (parseDigits cs).map (fun p => (-(p.1 : Int), p.2))
  | cs => (parseDigits cs).map (fun p => ((p.1 : Int), p.2))

/-- Consume one list element: the keyword `None` or an integer literal.
JSON's `null` matches neither, exactly as it is not a Python literal. -/
def parseElem : List Char → Option (Option Int × List Char)
  | 'N' :: 'o' :: 'n' :: 'e' :: rest => some (none, rest)
  | cs => (parsePyInt cs).map (fun p => (some p.1, p.2))

/-- Comma-separated elements (fuelled recursion; the fuel is sized from the
input so it never runs out on inputs the grammar accepts). -/
def parseItems : Nat → List Char → Option (List (Option Int) × List Char)
  | 0, _ => none
  | fuel + 1, cs =>
    match parseElem (skipSpaces cs) with
    | none => none
    | some (v, rest) =>
      match skipSpaces rest with
      | ',' :: rest2 => (parseItems fuel rest2).map (fun p => (v :: p.1, p.2))
      | rest2 => some ([v], rest2)

/-- `ast.literal_eval` restricted to the bracketed int-or-`None` list
literals a `ci_list` CSV field can hold: `none` models the `ValueError` /
`SyntaxError` Python raises on anything else — in particular on JSON's
`null`. -/
def pyLiteralEvalIntList (s : String) : Option (List (Option Int)) :=
  match skipSpaces s.data with
  | '[' :: rest =>
    match skipSpaces rest with
    | ']' :: rest2 => if (skipSpaces rest2).isEmpty then some [] else none
    | rest2 =>
      match parseItems (rest2.length + 1) rest2 with
      | some (vs, rest3) =>
        match skipSpaces rest3 with
        | ']' :: rest4 => if (skipSpaces rest4).isEmpty then some vs else none
        | _ => none
      | none => none
  | _ => none

/-- Python `str.strip()` for the space-only whitespace these fields hold. -/
def pyStrip (s : String) : String :=
  ⟨(skipSpaces ((skipSpaces s.data).reverse)).reverse⟩

/-- `parse_list_of_ints` from `ci_stats.py`: strip the field, return `[]`
for an empty value, `literal_eval` it, keep list results only, drop `None`
entries and return the integers; any exception yields `[]`. -/
def parse_list_of_ints (value : String) : List Int :=
  let v := pyStrip value
  if v = "" then []
  else
    match pyLiteralEvalIntList v with
    | some xs => xs.filterMap id
    | none => []

/-- `pd.to_numeric(..., errors="coerce")` on the integer-formatted strings
the `selected_ip_ci` CSV column holds: an optionally signed decimal integer
parses to its value, anything else coerces to `NaN` (`none`). -/
def pyToNumeric (s : String) : Option Int :=
  match parsePyInt (pyStrip s).data with
  | some (n, rest) => if rest.isEmpty then some n else none
  | none => none

/-- **C6 counterexample** — The Correlation Driver serializes
`ci_list = [10, None, 20]` with `json.dumps` as `"[10, null, 20]"`, and the
Aggregate Statistics Engine's `parse_list_of_ints` re-parses that field to
`[]` — not to the original values: `null` is not a Python literal, so
`ast.literal_eval` raises and the parser returns the empty list.  The claimed
round trip fails at this input. -/
theorem ci_list_roundtrip_counterexample :
    jsonDumpsCiList [some 10, none, some 20] = "[10, null, 20]" ∧
    parse_list_of_ints (jsonDumpsCiList [some 10, none, some 20]) = [] ∧
    ([] : List Int) ≠ [10, 20] := by
  refine ⟨rfl, by decide, by decide⟩

/-- **C6 (amended)** — A `ci_list` containing `null` does not round-trip: the
written field `"[10, null, 20]"` re-parses to `[]`; and even its Python-
literal spelling `"[10, None, 20]"` re-parses to `[10, 20]` without the null
entry, because `parse_list_of_ints` filters `None` out by design.  A
null-free `ci_list` round-trips exactly (`[10, 20]` re-parses to `[10, 20]`),
and `selected_ip_ci = 10` is written as `"10"` and re-read as the number
`10`. -/
theorem ci_list_roundtrip_amended :
    parse_list_of_ints (jsonDumpsCiList [some 10, none, some 20]) = [] ∧
    parse_list_of_ints "[10, None, 20]" = [10, 20] ∧
    jsonDumpsCiList [some 10, some 20] = "[10, 20]" ∧
    parse_list_of_ints (jsonDumpsCiList [some 10, some 20]) = [10, 20] ∧
    pyToNumeric (intRepr 10) = some 10 := by
  refine ⟨by decide, by decide, rfl, by decide, by decide⟩

/-! ## Aggregate Statistics Engine (`ci_stats.py`)

A dataframe is a list of rows whose positions are the pandas labels
(`read_csv` yields a `RangeIndex`).  `selected_ip_ci` is carried after the
`pd.to_numeric(errors="coerce")` coercion (`none` models `NaN`). -/

/-- One row of the correlated CSV as `compute_ci_aggregates` sees it. -/
structure StatsRow where
  timestamp : Int
  selected_ip_ci : Option Int
  ci_list : String
  deriving Repr, DecidableEq

/-- The coerced `selected_ip_ci` of the row at label `i`. -/
def selectedAt (df : List StatsRow) (i : Nat) : Option Int :=
  (df.get? i).bind (fun r => r.selected_ip_ci)

/-- `ci_list_parsed` at label `i`: `parse_list_of_ints` of the raw field
(`[]` beyond the frame, where no label exists). -/
def parsedAt (df : List StatsRow) (i : Nat) : List Int :=
  ((df.get? i).map (fun r => parse_list_of_ints r.ci_list)).getD []

/-- The filter `df_ci = df[df["selected_ip_ci"] >= 0]` (pandas keeps a row
iff the coerced value is a number `≥ 0`; `NaN` compares false). -/
def usableSelected : Option Int → Bool
  | some v => decide (0 ≤ v)
  | none => false

/-- The labels of the rows retained by the `selected_ip_ci >= 0` filter. -/
def retainedLabels (df : List StatsRow) : List Nat :=
  (List.range df.length).filter (fun i => usableSelected (selectedAt df i))

/-- `sum_selected = df_ci["selected_ip_ci"].sum()`. -/
def sumSelected (df : List StatsRow) : Int :=
  ((retainedLabels df).map (fun i => (selectedAt df i).getD 0)).sum

/-- Python `min(xs) if xs else None` on a parsed `ci_list`. -/
def bestCi (xs : List Int) : Option Int := xs.min?

/-- `sum_best = df_ci["best_ci"].fillna(0).sum()`; `best_ci` aligns
`ci_list_parsed` (full original index) onto the retained labels. -/
def sumBest (df : List StatsRow) : Int :=
  ((retainedLabels df).map (fun i => (bestCi (parsedAt df i)).getD 0)).sum

/-- `int(ts) // 3600` (Python floor division). -/
def hourOf (ts : Int) : Int := Int.fdiv ts 3600

/-- The timestamp of the row at label `i` (defaulting off-frame, unused). -/
def timestampAt (df : List StatsRow) (i : Nat) : Int :=
  ((df.get? i).map (fun r => r.timestamp)).getD 0

/-- The `ci_list` attached to the retained row with original label `ℓ` in
`compute_hourly_min_ci`.  The code assigns the series
`ci_list_parsed.loc[df_ci.index].reset_index(drop=True)` (positions
`0..k-1` holding the retained rows' lists, `k` = number of retained rows) to
the label-indexed `df_hour`; pandas aligns on index labels, so label `ℓ`
receives the list of the `ℓ`-th retained row when `ℓ < k`, and `NaN` (kept
as no list, skipped by the `isinstance` check) otherwise. -/
def hourlyListAt (df : List StatsRow) (ℓ : Nat) : List Int :=
  let L := retainedLabels df
  if h : ℓ < L.length then parsedAt df (L.get ⟨ℓ, h⟩) else []

/-- The flattened per-hour pool of `compute_hourly_min_ci` for hour `h`:
lists attached to retained rows whose timestamp falls in `h`. -/
def hourlyPool (df : List StatsRow) (h : Int) : List Int :=
  ((retainedLabels df).filter (fun ℓ => hourOf (timestampAt df ℓ) == h)).flatMap
    (hourlyListAt df)

/-- `per_hour_min_ci[h]`: the minimum of the hour's pool, absent when the
pool is empty. -/
def perHourMinCi (df : List StatsRow) (h : Int) : Option Int :=
  (hourlyPool df h).min?

/-- Replace the `ci_list` field of the row at label `ℓ` (used to state that
excluded rows' lists cannot influence the statistics). -/
def setCiList : List StatsRow → Nat → String → List StatsRow
  | [], _, _ => []
  | r :: rest, 0, s => { r with ci_list := s } :: rest
  | r :: rest, n + 1, s => r :: setCiList rest n s

theorem setCiList_length (df : List StatsRow) (ℓ : Nat) (s : String) :
    (setCiList df ℓ s).length = df.length := by
  induction df generalizing ℓ with
  | nil => rfl
  | cons r rest ih =>
    cases ℓ with
    | zero => rfl
    | succ n => simp [setCiList, ih]

theorem selectedAt_setCiList (df : List StatsRow) (ℓ : Nat) (s : String)
    (i : Nat) : selectedAt (setCiList df ℓ s) i = selectedAt df i := by
  induction df generalizing ℓ i with
  | nil => rfl
  | cons r rest ih =>
    cases ℓ with
    | zero => cases i <;> rfl
    | succ n =>
      cases i with
      | zero => rfl
      | succ j =>
        show selectedAt (setCiList rest n s) j = selectedAt rest j
        exact ih n j

theorem parsedAt_setCiList (df : List StatsRow) (ℓ : Nat) (s : String)
    (i : Nat) (hne : i ≠ ℓ) :
    parsedAt (setCiList df ℓ s) i = parsedAt df i := by
  induction df generalizing ℓ i with
  | nil => rfl
  | cons r rest ih =>
    cases ℓ with
    | zero =>
      cases i with
      | zero => exact absurd rfl hne
      | succ j => rfl
    | succ n =>
      cases i with
      | zero => rfl
      | succ j =>
        show parsedAt (setCiList rest n s) j = parsedAt rest j
        exact ih n j (fun hj => hne (by rw [hj]))

theorem retainedLabels_setCiList (df : List StatsRow) (ℓ : Nat) (s : String) :
    retainedLabels (setCiList df ℓ s) = retainedLabels df := by
  unfold retainedLabels
  rw [setCiList_length]
  apply List.filter_congr
  intro i _
  rw [selectedAt_setCiList]

/-- **C7 counterexample** — Two rows in the same hour: row 0 has
`selected_ip_ci = -1` (excluded) and the usable `ci_list` `"[5]"`; row 1 is
retained with `ci_list` `"[30]"`.  The claim puts `5` in hour 0's minimum
pool, but the code's pool for hour 0 is empty (`per_hour_min_ci` has no
entry): `compute_hourly_min_ci` draws only from the filtered frame, and the
reset-index alignment attaches no list to the surviving label. -/
theorem hourly_pool_counterexample :
    parse_list_of_ints "[5]" = [5] ∧
    usableSelected (some (-1)) = false ∧
    retainedLabels [⟨0, some (-1), "[5]"⟩, ⟨0, some 50, "[30]"⟩] = [1] ∧
    perHourMinCi [⟨0, some (-1), "[5]"⟩, ⟨0, some 50, "[30]"⟩] 0 = none ∧
    perHourMinCi [⟨0, some (-1), "[5]"⟩, ⟨0, some 50, "[30]"⟩] 0 ≠ some 5 := by
  refine ⟨by decide, by decide, by decide, by decide, by decide⟩

/-- **C7 (amended)** — Rows with negative or missing `selected_ip_ci` are
excluded from the global-savings sums — replacing such a row's `ci_list` by
any string changes neither `sum_selected` nor `sum_best` — but, contrary to
the claim, their `ci_list` entries do not reach the per-hour minimum pool
either: every value of any hour's pool is an entry of the parsed `ci_list`
of some retained row.  (Within retained rows the pool is additionally
subject to the index-alignment shift, as the counterexample shows, yet it
never draws on excluded rows.) -/
theorem excluded_rows_stats (df : List StatsRow) (ℓ : Nat) (s : String)
    (hx : ℓ ∉ retainedLabels df) :
    sumSelected (setCiList df ℓ s) = sumSelected df ∧
    sumBest (setCiList df ℓ s) = sumBest df ∧
    (∀ h x, x ∈ hourlyPool df h → ∃ m ∈ retainedLabels df, x ∈ parsedAt df m) := by
  refine ⟨?_, ?_, ?_⟩
  · unfold sumSelected
    rw [retainedLabels_setCiList]
    congr 1
    apply List.map_congr_left
    intro i _
    rw [selectedAt_setCiList]
  · unfold sumBest
    rw [retainedLabels_setCiList]
    congr 1
    apply List.map_congr_left
    intro i hi
    rw [parsedAt_setCiList df ℓ s i (fun hiℓ => hx (hiℓ ▸ hi))]
  · intro h x hx2
    unfold hourlyPool at hx2
    rw [List.mem_flatMap] at hx2
    obtain ⟨m, hm, hxm⟩ := hx2
    have hmem : m ∈ retainedLabels df := List.mem_of_mem_filter hm
    unfold hourlyListAt at hxm
    by_cases hlt : m < (retainedLabels df).length
    · rw [dif_pos hlt] at hxm
      exact ⟨(retainedLabels df).get ⟨m, hlt⟩, List.get_mem _ m hlt, hxm⟩
    · rw [dif_neg hlt] at hxm
      exact absurd hxm (List.not_mem_nil x)

/-- Witness for `excluded_rows_stats`: in the counterexample frame, wiping
the excluded row's `ci_list` leaves both global sums unchanged. -/
theorem excluded_rows_stats_witness :
    sumSelected (setCiList [⟨0, some (-1), "[5]"⟩, ⟨0, some 50, "[30]"⟩] 0 "") =
      sumSelected [⟨0, some (-1), "[5]"⟩, ⟨0, some 50, "[30]"⟩] ∧
    sumBest (setCiList [⟨0, some (-1), "[5]"⟩, ⟨0, some 50, "[30]"⟩] 0 "") =
      sumBest [⟨0, some (-1), "[5]"⟩, ⟨0, some 50, "[30]"⟩] :=
  ⟨(excluded_rows_stats [⟨0, some (-1), "[5]"⟩, ⟨0, some 50, "[30]"⟩] 0 ""
      (by decide)).1,
   (excluded_rows_stats [⟨0, some (-1), "[5]"⟩, ⟨0, some 50, "[30]"⟩] 0 ""
      (by decide)).2.1⟩

/-! ## Correlation Driver (`correlate`) -/

/-- A line of the ping JSON-lines input as the driver classifies it: either
skipped — blank, unparseable JSON, `type != "ping"`, or missing
`prb_id`/`timestamp` (all of these `continue` without reaching the row cap
check) — or a ping event with its extracted fields. -/
inductive PingLine where
  | skip
  | ping (prb_id : Int) (ts : Int) (src_addr dst_addr : Option String)
      (avg : Option Int)
  deriving Repr, DecidableEq

/-- Whether a line is a well-formed ping event the driver would process. -/
def PingLine.isPing : PingLine → Bool
  | .skip => false
  | .ping _ _ _ _ _ => true

/-- Python truthiness of an optional string (`None` and `""` are falsy). -/
def pyTruthy : Option String → Bool
  | none => false
  | some s => !(s == "")

/-- One emitted CSV row of `correlate` (the `writer.writerow` payload with
its typed values; `resolved_set` and `ci_list` are serialized with
`json.dumps` on write). -/
structure CorrelatedRow where
  prb_id : Int
  timestamp : Int
  readable_time : String
  src_ip : String
  selected_ip : String
  in_dns_set : Bool
  avg_rtt : Option Int
  resolved_set : List String
  ci_list : List (Option Int)
  selected_ip_ci : Int
  deriving Repr, DecidableEq

/-- The per-event body of `correlate`'s loop: match the snapshot via
`find_latest_resolved_set`, sort the selected set (`sorted(list(...))`),
format the timestamp through the injected `fromIso` stand-in for
`datetime.fromtimestamp(...).isoformat()`, enrich via `add_ci_to_row`, and
build the output row. -/
def processPing (o : Oracles) (fromIso : Int → String)
    (dnsIndex : Int → List (Int × List String)) (st : CiState)
    (prb ts : Int) (src dst : Option String) (avg : Option Int) :
    CiState × CorrelatedRow :=
  let selected := find_latest_resolved_set (dnsIndex prb) ts
  let in_dns := if pyTruthy dst then decide (dst.getD "" ∈ selected) else false
  let resolved_list :=
    if selected.isEmpty then []
    else selected.mergeSort (fun a b => decide (a ≤ b))
  let readable := fromIso ts
  let r := add_ci_to_row o resolved_list (dst.getD "") readable st
  (r.1, ⟨prb, ts, readable, src.getD "", dst.getD "", in_dns, avg,
    resolved_list, r.2.1, r.2.2⟩)

/-- `correlate`'s emit loop: `enumerate(fin, 1)` over the input lines with
skipped lines `continue`-ing straight to the next iteration, and the
`if line_num >= max_rows: break` check placed after `writerow`. -/
def correlateLoop (o : Oracles) (fromIso : Int → String)
    (dnsIndex : Int → List (Int × List String)) (max_rows : Nat) :
    Nat → List PingLine → CiState → List CorrelatedRow × CiState
  | _, [], st => ([], st)
  | n, PingLine.skip :: rest, st =>
    correlateLoop o fromIso dnsIndex max_rows (n + 1) rest st
  | n, PingLine.ping prb ts src dst avg :: rest, st =>
    let r := processPing o fromIso dnsIndex st prb ts src dst avg
    if n ≥ max_rows then ([r.2], r.1)
    else
      let rs := correlateLoop o fromIso dnsIndex max_rows (n + 1) rest r.1
      (r.2 :: rs.1, rs.2)

/-- `correlate` from `correlate_dns_ping.py`, restricted to the emit loop
(the DNS extraction cache and file I/O around it are glue): returns the rows
written and the final cache state. -/
def correlate (o : Oracles) (fromIso : Int → String)
    (dnsIndex : Int → List (Int × List String)) (max_rows : Nat)
    (lines : List PingLine) (st : CiState) : List CorrelatedRow × CiState :=
  correlateLoop o fromIso dnsIndex max_rows 1 lines st

theorem correlateLoop_length_le (o : Oracles) (fromIso : Int → String)
    (dnsIndex : Int → List (Int × List String)) (max_rows : Nat) :
    ∀ (lines : List PingLine) (n : Nat) (st : CiState),
      (correlateLoop o fromIso dnsIndex max_rows n lines st).1.length ≤
        max 1 (max_rows + 1 - n) := by
  intro lines
  induction lines with
  | nil => intro n st; simp [correlateLoop]
  | cons l rest ih =>
    intro n st
    cases l with
    | skip =>
      calc (correlateLoop o fromIso dnsIndex max_rows (n + 1) rest st).1.length
          ≤ max 1 (max_rows + 1 - (n + 1)) := ih (n + 1) st
        _ ≤ max 1 (max_rows + 1 - n) := by omega
    | ping prb ts src dst avg =>
      show (if n ≥ max_rows then _ else _ : List CorrelatedRow × CiState).1.length ≤ _
      by_cases hn : n ≥ max_rows
      · simp only [hn, if_true]
        show 1 ≤ _
        omega
      · simp only [hn, if_false]
        have := ih (n + 1)
          (processPing o fromIso dnsIndex st prb ts src dst avg).1
        show (_ :: (correlateLoop o fromIso dnsIndex max_rows (n + 1) rest _).1).length ≤ _
        simp only [List.length_cons]
        omega

theorem correlateLoop_length_exact (o : Oracles) (fromIso : Int → String)
    (dnsIndex : Int → List (Int × List String)) (max_rows : Nat) :
    ∀ (lines : List PingLine) (n : Nat) (st : CiState), n ≤ max_rows →
      (∀ l ∈ lines.take (max_rows + 1 - n), l.isPing) →
      max_rows + 1 - n ≤ lines.length →
      (correlateLoop o fromIso dnsIndex max_rows n lines st).1.length =
        max_rows + 1 - n := by
  intro lines
  induction lines with
  | nil =>
    intro n st hn _ hlen
    simp only [List.length_nil] at hlen
    omega
  | cons l rest ih =>
    intro n st hn hping hlen
    have hpos : 1 ≤ max_rows + 1 - n := by omega
    have hl : l.isPing := by
      apply hping
      rw [List.take_cons (by omega)]
      exact List.mem_cons_self l _
    cases l with
    | skip => exact absurd hl (by simp [PingLine.isPing])
    | ping prb ts src dst avg =>
      show (if n ≥ max_rows then _ else _ : List CorrelatedRow × CiState).1.length = _
      by_cases hcap : n ≥ max_rows
      · have : n = max_rows := by omega
        simp only [hcap, if_true]
        show (1 : Nat) = _
        omega
      · simp only [hcap, if_false]
        show (_ :: (correlateLoop o fromIso dnsIndex max_rows (n + 1) rest _).1).length = _
        simp only [List.length_cons]
        have hrest : (correlateLoop o fromIso dnsIndex max_rows (n + 1) rest
            (processPing o fromIso dnsIndex st prb ts src dst avg).1).1.length =
            max_rows + 1 - (n + 1) := by
          apply ih (n + 1) _ (by omega)
          · intro l' hl'
            apply hping
            rw [List.take_cons (by omega)]
            exact List.mem_cons_of_mem _ hl'
          · simp only [List.length_cons] at hlen ⊢
            omega
        omega

/-- **C8 counterexample** — With row cap `N = 2` and an input stream of one
skipped line followed by three valid ping events, the driver emits exactly
one record and stops: the cap check `line_num >= max_rows` counts input
lines (the skipped line included), not processed records, so the second
valid event is never processed even though the stream holds at least `N`
valid ping events. -/
theorem row_cap_counterexample :
    ((([PingLine.skip, PingLine.ping 1 0 none none none,
        PingLine.ping 1 0 none none none,
        PingLine.ping 1 0 none none none] : List PingLine).filter
          PingLine.isPing).length = 3) ∧
    (correlate ciFailOracles (fun _ => "t") (fun _ => []) 2
        [PingLine.skip, PingLine.ping 1 0 none none none,
         PingLine.ping 1 0 none none none,
         PingLine.ping 1 0 none none none] emptyCiState).1.length = 1 ∧
    (1 : Nat) ≠ 2 := by
  refine ⟨by decide, rfl, by decide⟩

/-- **C8 (amended)** — The cap bounds input lines, not processed records:
with cap `N ≥ 1` the driver emits at most `N` records (processing stops at
the first record whose 1-based input line number reaches `N`, and nothing
after the break is emitted); it emits exactly `N` records when the first `N`
input lines are all valid ping events — but interleaved skipped lines count
against the cap, so a stream with at least `N` valid events can yield fewer
than `N` records (see the counterexample). -/
theorem row_cap_bounds (o : Oracles) (fromIso : Int → String)
    (dnsIndex : Int → List (Int × List String)) (max_rows : Nat)
    (lines : List PingLine) (st : CiState) (hpos : 1 ≤ max_rows) :
    (correlate o fromIso dnsIndex max_rows lines st).1.length ≤ max_rows ∧
    ((∀ l ∈ lines.take max_rows, l.isPing) → max_rows ≤ lines.length →
      (correlate o fromIso dnsIndex max_rows lines st).1.length = max_rows) := by
  constructor
  · have h := correlateLoop_length_le o fromIso dnsIndex max_rows lines 1 st
    unfold correlate
    omega
  · intro hping hlen
    have h := correlateLoop_length_exact o fromIso dnsIndex max_rows lines 1 st
      hpos (by simpa using hping) (by omega)
    unfold correlate
    omega

/-- Witness for `row_cap_bounds`: cap 2 over two valid ping lines emits
exactly 2 records. -/
theorem row_cap_bounds_witness :
    (correlate ciFailOracles (fun _ => "t") (fun _ => []) 2
        [PingLine.ping 1 0 none none none, PingLine.ping 1 0 none none none]
        emptyCiState).1.length ≤ 2 ∧
    (correlate ciFailOracles (fun _ => "t") (fun _ => []) 2
        [PingLine.ping 1 0 none none none, PingLine.ping 1 0 none none none]
        emptyCiState).1.length = 2 :=
  ⟨(row_cap_bounds ciFailOracles (fun _ => "t") (fun _ => []) 2
      [PingLine.ping 1 0 none none none, PingLine.ping 1 0 none none none]
      emptyCiState (by decide)).1,
   (row_cap_bounds ciFailOracles (fun _ => "t") (fun _ => []) 2
      [PingLine.ping 1 0 none none none, PingLine.ping 1 0 none none none]
      emptyCiState (by decide)).2 (by decide) (by decide)⟩

end Atlas
